import Mathlib

/-!
Shallow embedding of the Grid36 tile-indexing core of the repository
(`src/utils/coordinateConversion.ts`).  Geographic longitude/latitude inputs
reach the core only through the external proj4 projection; every claim below
quantifies over the projected planar point, so the embedding takes the planar
point `(x, y) : ℚ × ℚ` directly (JavaScript doubles embed into ℚ).  The
projection round trip used by `adjustHashDepth`'s extend path (decode the
centroid, convert to WGS84 and back) is likewise an external proj4 call and is
passed as an explicit function parameter `rt`.  Fallible functions (the source
throws) return `Option`.  Strings are modelled as `List Char`.
-/

namespace Grid36

/-- Source constant `X_MIN_AREA` (line 14). -/
def X_MIN_AREA : ℤ := 607919

/-- Source constant `Y_MIN_AREA` (line 15). -/
def Y_MIN_AREA : ℤ := 4528175

/-- Source constant `X_MAX_AREA` (line 16). -/
def X_MAX_AREA : ℤ := 10685615

/-- Source constant `Y_MAX_AREA` (line 17). -/
def Y_MAX_AREA : ℤ := 14605871

/-- Source 6x6 glyph matrix `GLYPH_GRID` (lines 24-31). -/
def GLYPH_GRID : List (List Char) :=
  [['Z','G','H','I','J','K'],
   ['Y','F','4','5','6','L'],
   ['X','E','3','0','7','M'],
   ['W','D','2','1','8','N'],
   ['V','C','B','A','9','O'],
   ['U','T','S','R','Q','P']]

/-- Entry `GLYPH_GRID[row][col]` with an out-of-range default. -/
def glyphAt (row col : ℕ) : Char := (GLYPH_GRID.getD row []).getD col '?'

/-- All (row, col) index pairs of the 6x6 grid, row-major as in the
source's construction loop (lines 163-168). -/
def gridPairs : List (ℕ × ℕ) :=
  (List.range 6).flatMap (fun r => (List.range 6).map (fun c => (r, c)))

/-- Source map `GRID36_POS` (lines 163-168): character to `(col, row)`. -/
def GRID36_POS (ch : Char) : Option (ℕ × ℕ) :=
  (gridPairs.find? (fun rc => glyphAt rc.1 rc.2 == ch)).map (fun rc => (rc.2, rc.1))

/-- Source powers-of-6 table `POW6` (line 171). -/
def POW6 : List ℕ := [1, 6, 36, 216, 1296, 7776, 46656, 279936, 1679616, 10077696]

/-- Source `N = X_MAX_AREA - X_MIN_AREA` (line 174). -/
def N : ℤ := X_MAX_AREA - X_MIN_AREA

/-- The reserved all-zero 9-character tile ID (decode special case, line 367). -/
def RESERVED : List Char := ['0','0','0','0','0','0','0','0','0']

/-- Base-6 digit of `i` at position `k` (the value the source loop extracts
as `d_i = Math.floor(rem_i / pow6k)` after earlier iterations reduced
`rem_i` to `i mod 6^(k+1)`). -/
def dgt (i k : ℕ) : ℕ := i / 6 ^ k % 6

/-- Descending index list `[k, k-1, ..., k-c+1]`, the values taken by the
source's encode loop counter (`for k = 8; k > 8 - depth; k--`, line 297). -/
def ksFrom : ℕ → ℕ → List ℕ
  | _, 0 => []
  | k, c + 1 => k :: ksFrom (k - 1) c

/-- Body of the encode loop of `encodeToGrid36` (source lines 292-310): for
each `k`, extract the base-6 digit pair, clamp defensively to `[0,5]`, map
through `GLYPH_GRID[5 - dJ][dI]`, and continue on the remainders.  The final
remainders are carried in the result to state how states chain. -/
def encodeLoop : List ℕ → ℕ → ℕ → List Char × ℕ × ℕ
  | [], remI, remJ => ([], remI, remJ)
  | k :: ks, remI, remJ =>
    let p := POW6.getD k 0
    let dI := remI / p
    let dJ := remJ / p
    let row := 5 - min 5 (max 0 dJ)
    let col := min 5 (max 0 dI)
    let rest := encodeLoop ks (remI % p) (remJ % p)
    (glyphAt row col :: rest.1, rest.2)

/-- Closed form of the characters produced by the encode loop at depth `d`
from full-resolution indices `(i, j)`: character `t` is the glyph of the
base-6 digit pair of `(i, j)` at position `8 - t`. -/
def encChars (i j d : ℕ) : List Char :=
  (List.range d).map (fun t => glyphAt (5 - dgt j (8 - t)) (dgt i (8 - t)))

/-- Accumulation loop of `grid36DecodeToOrigin` (source lines 246-255):
per character, look up `(col, row)`, take `dI = col`, `dJ = 5 - row`, and
fold `i = i*6 + dI`, `j = j*6 + dJ`; `none` on an unknown character. -/
def grid36Accum : List Char → ℕ → ℕ → Option (ℕ × ℕ)
  | [], i, j => some (i, j)
  | ch :: cs, i, j =>
    match GRID36_POS ch with
    | none => none
    | some cr => grid36Accum cs (i * 6 + cr.1) (j * 6 + (5 - cr.2))

/-- Source `grid36DecodeToOrigin` (lines 238-263): validates the length,
accumulates digit pairs, and scales up to the full-resolution origin,
returning `(i0, j0, scale)`. -/
def grid36DecodeToOrigin (code : List Char) : Option (ℕ × ℕ × ℕ) :=
  if 1 ≤ code.length ∧ code.length ≤ 9 then
    (grid36Accum code 0 0).map (fun ij =>
      let scale := POW6.getD (9 - code.length) 0
      (ij.1 * scale, ij.2 * scale, scale))
  else none

/-- Source `ijToXy` (lines 191-195): cell-center planar coordinates. -/
def ijToXy (i j : ℕ) : ℚ × ℚ :=
  ((X_MIN_AREA : ℚ) + ((i : ℚ) + 1/2), (Y_MIN_AREA : ℚ) + ((j : ℚ) + 1/2))

/-- Decode result record (source lines 358-364); the nested `ijOrigin`,
`centroid` and `bounds` objects are flattened into fields, and the
geographic centroid (an external proj4 back-projection) is omitted. -/
structure DecodeRecord where
  hash : List Char
  depth : ℕ
  tileSize : ℚ
  i0 : ℕ
  j0 : ℕ
  cx : ℚ
  cy : ℚ
  xmin : ℚ
  ymin : ℚ
  xmax : ℚ
  ymax : ℚ
deriving DecidableEq, Repr

/-- The literal reference tile record returned for the reserved all-zero ID
(source lines 367-380). -/
def REF_RECORD : DecodeRecord where
  hash := RESERVED
  depth := 9
  tileSize := 1
  i0 := 10077695
  j0 := 10077695
  cx := 5646767 + 1/2
  cy := 9567023 + 1/2
  xmin := 5646767
  ymin := 9567023
  xmax := 5646768
  ymax := 9567024

/-- General (non-special-case) path of `decodeFromGrid36`
(source lines 382-401). -/
def decodeGeneral (hash : List Char) : Option DecodeRecord :=
  (grid36DecodeToOrigin hash).map (fun t =>
    let c := ijToXy (t.1 + t.2.2 / 2) (t.2.1 + t.2.2 / 2)
    { hash := hash
      depth := hash.length
      tileSize := (t.2.2 : ℚ)
      i0 := t.1
      j0 := t.2.1
      cx := c.1
      cy := c.2
      xmin := (X_MIN_AREA : ℚ) + (t.1 : ℚ)
      ymin := (Y_MIN_AREA : ℚ) + (t.2.1 : ℚ)
      xmax := (X_MIN_AREA : ℚ) + (t.1 : ℚ) + (t.2.2 : ℚ)
      ymax := (Y_MIN_AREA : ℚ) + (t.2.1 : ℚ) + (t.2.2 : ℚ) })

/-- Source `decodeFromGrid36` (lines 358-402): reserved-string special case
first, otherwise the general path. -/
def decodeFromGrid36 (hash : List Char) : Option DecodeRecord :=
  if hash = RESERVED then some REF_RECORD else decodeGeneral hash

/-- The epsilon used in the encode clamp, `1e-9` (source lines 283-284). -/
def EPS : ℚ := 1 / 1000000000

/-- Clamp of the planar x coordinate, `max(X_MIN_AREA, min(X_MAX_AREA - 1e-9, x))`
(source line 283). -/
def clampX (x : ℚ) : ℚ := max (X_MIN_AREA : ℚ) (min ((X_MAX_AREA : ℚ) - EPS) x)

/-- Clamp of the planar y coordinate (source line 284). -/
def clampY (y : ℚ) : ℚ := max (Y_MIN_AREA : ℚ) (min ((Y_MAX_AREA : ℚ) - EPS) y)

/-- Full-resolution x index `i = Math.floor(clamp(x) - X_MIN_AREA)`
(source line 283). -/
def iIdx (x : ℚ) : ℤ := ⌊clampX x - (X_MIN_AREA : ℚ)⌋

/-- Full-resolution y index `j` (source line 284). -/
def jIdx (y : ℚ) : ℤ := ⌊clampY y - (Y_MIN_AREA : ℚ)⌋

/-- Domain membership test used for the `foraArea` flag (source line 281). -/
def inDomain (x y : ℚ) : Prop :=
  (X_MIN_AREA : ℚ) ≤ x ∧ x < (X_MAX_AREA : ℚ) ∧ (Y_MIN_AREA : ℚ) ≤ y ∧ y < (Y_MAX_AREA : ℚ)

instance (x y : ℚ) : Decidable (inDomain x y) := by
  unfold inDomain; infer_instance

/-- Encode result record (source lines 268-275), nested objects flattened,
geographic centroid omitted (external proj4 back-projection). -/
structure EncodeResult where
  hash : List Char
  depth : ℕ
  tileSize : ℚ
  i0 : ℕ
  j0 : ℕ
  cx : ℚ
  cy : ℚ
  foraArea : Bool
deriving DecidableEq, Repr

/-- Source `encodeToGrid36` (lines 268-325) on the projected planar point:
depth precondition, `foraArea` flag, epsilon-clamped floor indices, domain
guard, most-significant-first digit loop, and a final decode of the produced
hash for the derived geometry. -/
def encodeToGrid36 (x y : ℚ) (depth : ℕ) : Option EncodeResult :=
  if 1 ≤ depth ∧ depth ≤ 9 then
    if 0 ≤ iIdx x ∧ iIdx x < N ∧ 0 ≤ jIdx y ∧ jIdx y < N then
      (decodeFromGrid36 ((encodeLoop (ksFrom 8 depth) (iIdx x).toNat (jIdx y).toNat).1)).map
        (fun d =>
          { hash := (encodeLoop (ksFrom 8 depth) (iIdx x).toNat (jIdx y).toNat).1
            depth := depth
            tileSize := d.tileSize
            i0 := d.i0
            j0 := d.j0
            cx := d.cx
            cy := d.cy
            foraArea := decide (¬ inDomain x y) })
    else none
  else none

/-- Source `getTileSizeFromLevel` (lines 150-160). -/
def getTileSizeFromLevel (depth : ℕ) : Option ℚ :=
  if 1 ≤ depth ∧ depth ≤ 9 then
    some (min (((X_MAX_AREA - X_MIN_AREA : ℤ) : ℚ) / 6 ^ depth)
              (((Y_MAX_AREA - Y_MIN_AREA : ℤ) : ℚ) / 6 ^ depth))
  else none

/-- Source `adjustHashDepth` (lines 330-357).  `rt` is the external proj4
round trip of the extend path (`convertSIRGASToWGS84` at line 347 followed by
`convertWGS84ToSIRGASAlbers` inside `encodeToGrid36`), passed as a parameter;
any failure inside the extend path falls back to padding with `'Z'`. -/
def adjustHashDepth (rt : ℚ → ℚ → ℚ × ℚ) (hash : List Char) (newDepth : ℕ) :
    Option (List Char) :=
  if 1 ≤ newDepth ∧ newDepth ≤ 9 then
    if hash.length = newDepth then some hash
    else if newDepth < hash.length then some (hash.take newDepth)
    else
      match decodeFromGrid36 hash with
      | some d =>
        match encodeToGrid36 (rt d.cx d.cy).1 (rt d.cx d.cy).2 newDepth with
        | some e => some e.hash
        | none => some (hash ++ List.replicate (newDepth - hash.length) 'Z')
      | none =>  some (hash ++ List.replicate (newDepth - hash.length) 'Z')
  else none

/-! ### Basic arithmetic facts about the embedding -/

/-- The powers-of-6 table agrees with `6 ^ k`. -/
theorem pow6_getD : ∀ k < 10, POW6.getD k 0 = 6 ^ k := by decide

/-- The powers-of-6 table in subscript-lookup normal form. -/
theorem pow6_getElem : ∀ k < 10, (POW6[k]?).getD 0 = 6 ^ k := by decide

/-- The x-extent of the domain is `6 ^ 9` full-resolution cells. -/
theorem N_val : N = 10077696 := by decide

/-- The glyph lookup inverts the glyph table on in-range digit pairs. -/
theorem pos_glyph : ∀ a < 6, ∀ b < 6, GRID36_POS (glyphAt (5 - b) a) = some (a, 5 - b) := by
  decide

/-- Every glyph of an in-range digit pair is a symbol of the grid alphabet. -/
theorem glyph_mem : ∀ a < 6, ∀ b < 6, glyphAt (5 - b) a ∈ GLYPH_GRID.flatten := by decide

/-- Base-6 digits are below 6. -/
theorem dgt_lt (i k : ℕ) : dgt i k < 6 := Nat.mod_lt _ (by norm_num)

/-- Splitting of the descending loop-counter list. -/
theorem ksFrom_add (c1 : ℕ) : ∀ (k c2 : ℕ),
    ksFrom k (c1 + c2) = ksFrom k c1 ++ ksFrom (k - c1) c2 := by
  induction c1 with
  | zero => intro k c2; simp [ksFrom]
  | succ n ih =>
    intro k c2
    have h : n + 1 + c2 = (n + c2) + 1 := by omega
    rw [h]
    show k :: ksFrom (k - 1) (n + c2) = (k :: ksFrom (k - 1) n) ++ ksFrom (k - (n + 1)) c2
    rw [ih (k - 1) c2, Nat.sub_sub]
    simp [Nat.add_comm]

/-- Digits of a remainder agree with digits of the original number below the
cut position. -/
theorem dgt_mod (i k m : ℕ) (h : m < k) : dgt (i % 6 ^ k) m = dgt i m := by
  have h6 : (6 : ℕ) ^ k = 6 ^ m * 6 ^ (k - m) := by
    rw [← pow_add]; congr 1; omega
  rw [dgt, dgt, h6, Nat.mod_mul_right_div_self,
    Nat.mod_mod_of_dvd _ (dvd_pow_self 6 (by omega))]

/-- Closed form of the encode loop: on indices below `6 ^ (k + 1)` it emits
the glyphs of the most-significant base-6 digit pairs, one per counter
value, and the defensive clamps are inert. -/
theorem encodeLoop_closed : ∀ (c k : ℕ), c ≤ k + 1 → k ≤ 8 → ∀ i j : ℕ,
    i < 6 ^ (k + 1) → j < 6 ^ (k + 1) →
    (encodeLoop (ksFrom k c) i j).1 =
      (List.range c).map (fun t => glyphAt (5 - dgt j (k - t)) (dgt i (k - t))) := by
  intro c
  induction c with
  | zero => intro k _ _ i j _ _; rfl
  | succ n ih =>
    intro k hck hk8 i j hi hj
    have hp : POW6.getD k 0 = 6 ^ k := pow6_getD k (by omega)
    have hpow : (6 : ℕ) ^ (k + 1) = 6 ^ k * 6 := by rw [pow_succ]
    have hpos : 0 < (6 : ℕ) ^ k := Nat.pos_pow_of_pos k (by norm_num)
    have hdI : i / 6 ^ k < 6 := by
      rw [Nat.div_lt_iff_lt_mul hpos]; rw [hpow] at hi; omega
    have hdJ : j / 6 ^ k < 6 := by
      rw [Nat.div_lt_iff_lt_mul hpos]; rw [hpow] at hj; omega
    show (glyphAt (5 - min 5 (max 0 (j / POW6.getD k 0))) (min 5 (max 0 (i / POW6.getD k 0)))
        :: (encodeLoop (ksFrom (k - 1) n) (i % POW6.getD k 0) (j % POW6.getD k 0)).1) = _
    rw [hp, Nat.zero_max, Nat.zero_max, min_eq_right (by omega : i / 6 ^ k ≤ 5),
      min_eq_right (by omega : j / 6 ^ k ≤ 5)]
    rw [List.range_succ_eq_map, List.map_cons, List.map_map]
    congr 1
    · show glyphAt (5 - j / 6 ^ k) (i / 6 ^ k) = glyphAt (5 - dgt j (k - 0)) (dgt i (k - 0))
      rw [Nat.sub_zero, dgt, dgt, Nat.mod_eq_of_lt hdI, Nat.mod_eq_of_lt hdJ]
    · rcases Nat.eq_zero_or_pos k with hk0 | hkpos
      · have hn : n = 0 := by omega
        subst hk0 hn; rfl
      · have hrec := ih (k - 1) (by omega) (by omega) (i % 6 ^ k) (j % 6 ^ k)
          (by rw [Nat.sub_add_cancel hkpos]; exact Nat.mod_lt _ hpos)
          (by rw [Nat.sub_add_cancel hkpos]; exact Nat.mod_lt _ hpos)
        rw [hrec]
        apply List.map_congr_left
        intro t ht
        simp only [Function.comp]
        have hm : k - 1 - t < k := by omega
        rw [dgt_mod i k _ hm, dgt_mod j k _ hm]
        have he : k - 1 - t = k - t.succ := by omega
        rw [he]

/-- The encode loop at depth `d` from full-resolution indices produces
exactly the closed-form character list. -/
theorem encodeLoop_encChars (d : ℕ) (hd : d ≤ 9) (i j : ℕ)
    (hi : i < 6 ^ 9) (hj : j < 6 ^ 9) :
    (encodeLoop (ksFrom 8 d) i j).1 = encChars i j d :=
  encodeLoop_closed d 8 (by omega) (le_refl 8) i j hi hj

/-- Length of the closed-form character list. -/
theorem encChars_length (i j d : ℕ) : (encChars i j d).length = d := by
  simp [encChars]

/-- Taking a depth prefix of the closed-form character list yields the
closed-form list of the smaller depth. -/
theorem encChars_take (i j : ℕ) {d1 d2 : ℕ} (h : d1 ≤ d2) :
    (encChars i j d2).take d1 = encChars i j d1 := by
  rw [encChars, encChars, ← List.map_take, List.take_range, Nat.min_eq_left h]

/-- Every character of the closed-form list is a grid-alphabet symbol. -/
theorem encChars_mem (i j d : ℕ) : ∀ c ∈ encChars i j d, c ∈ GLYPH_GRID.flatten := by
  intro c hc
  rw [encChars, List.mem_map] at hc
  obtain ⟨t, _, ht⟩ := hc
  rw [← ht]
  exact glyph_mem _ (dgt_lt i (8 - t)) _ (dgt_lt j (8 - t))

/-- The decode accumulation splits over list append. -/
theorem grid36Accum_append (l1 l2 : List Char) : ∀ i j : ℕ,
    grid36Accum (l1 ++ l2) i j =
      (grid36Accum l1 i j).bind (fun ij => grid36Accum l2 ij.1 ij.2) := by
  induction l1 with
  | nil => intro i j; rfl
  | cons c cs ih =>
    intro i j
    show grid36Accum (c :: (cs ++ l2)) i j = _
    rw [grid36Accum, grid36Accum]
    cases GRID36_POS c with
    | none => rfl
    | some cr => exact ih _ _

/-- Accumulating the closed-form character list of depth `d` appends the
top `d` base-6 digits of `(i, j)` to the accumulator. -/
theorem grid36Accum_encChars (i j : ℕ) (hi : i < 6 ^ 9) (hj : j < 6 ^ 9) :
    ∀ d, d ≤ 9 → ∀ a b : ℕ, grid36Accum (encChars i j d) a b =
      some (a * 6 ^ d + i / 6 ^ (9 - d), b * 6 ^ d + j / 6 ^ (9 - d)) := by
  intro d
  induction d with
  | zero =>
    intro _ a b
    show some (a, b) = _
    rw [Nat.div_eq_of_lt hi, Nat.div_eq_of_lt hj]
    simp
  | succ n ih =>
    intro hn a b
    rw [encChars, List.range_succ, List.map_append]
    rw [show (List.range n).map
        (fun t => glyphAt (5 - dgt j (8 - t)) (dgt i (8 - t))) = encChars i j n from rfl]
    rw [grid36Accum_append, ih (by omega)]
    rw [Option.some_bind]
    show grid36Accum [glyphAt (5 - dgt j (8 - n)) (dgt i (8 - n))] _ _ = _
    rw [grid36Accum,
      pos_glyph _ (dgt_lt i (8 - n)) _ (dgt_lt j (8 - n))]
    show some ((a * 6 ^ n + i / 6 ^ (9 - n)) * 6 + dgt i (8 - n),
               (b * 6 ^ n + j / 6 ^ (9 - n)) * 6 + (5 - (5 - dgt j (8 - n)))) = _
    have hb : 5 - (5 - dgt j (8 - n)) = dgt j (8 - n) := by
      have := dgt_lt j (8 - n); omega
    rw [hb]
    have h9n : 9 - n = (8 - n) + 1 := by omega
    have h9n1 : 9 - (n + 1) = 8 - n := by omega
    have hdivI : i / 6 ^ (9 - n) = i / 6 ^ (8 - n) / 6 := by
      rw [h9n, pow_succ, ← Nat.div_div_eq_div_mul]
    have hdivJ : j / 6 ^ (9 - n) = j / 6 ^ (8 - n) / 6 := by
      rw [h9n, pow_succ, ← Nat.div_div_eq_div_mul]
    have hpow : (6 : ℕ) ^ (n + 1) = 6 ^ n * 6 := pow_succ 6 n
    have hmI : 6 * (i / 6 ^ (8 - n) / 6) + i / 6 ^ (8 - n) % 6 = i / 6 ^ (8 - n) :=
      Nat.div_add_mod _ 6
    have hmJ : 6 * (j / 6 ^ (8 - n) / 6) + j / 6 ^ (8 - n) % 6 = j / 6 ^ (8 - n) :=
      Nat.div_add_mod _ 6
    rw [hdivI, hdivJ, h9n1, dgt, dgt, hpow]
    congr 1
    rw [Prod.mk.injEq]
    constructor
    · conv_rhs => rw [← hmI]
      ring
    · conv_rhs => rw [← hmJ]
      ring

/-- Decode of the closed-form character list through the length guard and
scaling step. -/
theorem grid36DecodeToOrigin_encChars (d : ℕ) (h1 : 1 ≤ d) (h2 : d ≤ 9)
    (i j : ℕ) (hi : i < 6 ^ 9) (hj : j < 6 ^ 9) :
    grid36DecodeToOrigin (encChars i j d) =
      some (i / 6 ^ (9 - d) * 6 ^ (9 - d), j / 6 ^ (9 - d) * 6 ^ (9 - d), 6 ^ (9 - d)) := by
  rw [grid36DecodeToOrigin, if_pos (by rw [encChars_length]; omega)]
  rw [grid36Accum_encChars i j hi hj d h2 0 0]
  simp [encChars_length, pow6_getElem (9 - d) (by omega)]

/-- A membership characterisation of the symbol table: lookup succeeds
exactly on the 36 characters of the glyph grid. -/
theorem pos_isSome_iff (c : Char) :
    (GRID36_POS c).isSome = true ↔ c ∈ GLYPH_GRID.flatten := by
  constructor
  · intro h
    rw [GRID36_POS, Option.isSome_map'] at h
    obtain ⟨rc, hrc⟩ := Option.isSome_iff_exists.mp h
    have hmem : rc ∈ gridPairs := List.mem_of_find?_eq_some hrc
    have hp : (glyphAt rc.1 rc.2 == c) = true := by
      have hq := List.find?_some hrc
      exact hq
    have hglyph : ∀ rc ∈ gridPairs, glyphAt rc.1 rc.2 ∈ GLYPH_GRID.flatten := by decide
    rw [← eq_of_beq hp]
    exact hglyph rc hmem
  · intro h
    revert h
    exact (by decide : ∀ c ∈ GLYPH_GRID.flatten, (GRID36_POS c).isSome = true) c

/-- The decode accumulation succeeds exactly when every character is in the
symbol table. -/
theorem grid36Accum_isSome : ∀ (h : List Char) (i j : ℕ),
    (grid36Accum h i j).isSome = true ↔ ∀ c ∈ h, (GRID36_POS c).isSome = true := by
  intro h
  induction h with
  | nil => intro i j; simp [grid36Accum]
  | cons c cs ih =>
    intro i j
    rw [grid36Accum]
    cases hc : GRID36_POS c with
    | none => simp [hc]
    | some cr => simp [hc, ih]

/-- Inversion of a successful low-level decode. -/
theorem grid36DecodeToOrigin_inv {h : List Char} {t : ℕ × ℕ × ℕ}
    (ht : grid36DecodeToOrigin h = some t) :
    1 ≤ h.length ∧ h.length ≤ 9 ∧
      ∃ ij, grid36Accum h 0 0 = some ij ∧
        t = (ij.1 * 6 ^ (9 - h.length), ij.2 * 6 ^ (9 - h.length), 6 ^ (9 - h.length)) := by
  rw [grid36DecodeToOrigin] at ht
  by_cases hl : 1 ≤ h.length ∧ h.length ≤ 9
  · rw [if_pos hl] at ht
    obtain ⟨ij, hij, hf⟩ := Option.map_eq_some'.mp ht
    refine ⟨hl.1, hl.2, ij, hij, ?_⟩
    rw [← hf]
    simp [pow6_getElem (9 - h.length) (by omega)]
  · rw [if_neg hl] at ht
    exact absurd ht (by simp)

/-- Inversion of a successful general-path decode: every field of the
returned record in terms of the low-level origin triple. -/
theorem decodeGeneral_inv {h : List Char} {r : DecodeRecord}
    (hr : decodeGeneral h = some r) :
    ∃ t, grid36DecodeToOrigin h = some t ∧
      r.hash = h ∧ r.depth = h.length ∧ r.tileSize = (t.2.2 : ℚ) ∧
      r.i0 = t.1 ∧ r.j0 = t.2.1 ∧
      r.cx = (X_MIN_AREA : ℚ) + (((t.1 + t.2.2 / 2 : ℕ) : ℚ) + 1/2) ∧
      r.cy = (Y_MIN_AREA : ℚ) + (((t.2.1 + t.2.2 / 2 : ℕ) : ℚ) + 1/2) ∧
      r.xmin = (X_MIN_AREA : ℚ) + (t.1 : ℚ) ∧ r.ymin = (Y_MIN_AREA : ℚ) + (t.2.1 : ℚ) ∧
      r.xmax = (X_MIN_AREA : ℚ) + (t.1 : ℚ) + (t.2.2 : ℚ) ∧
      r.ymax = (Y_MIN_AREA : ℚ) + (t.2.1 : ℚ) + (t.2.2 : ℚ) := by
  obtain ⟨t, ht, hf⟩ := Option.map_eq_some'.mp hr
  subst hf
  exact ⟨t, ht, rfl, rfl, rfl, rfl, rfl, rfl, rfl, rfl, rfl, rfl, rfl⟩

/-- Decode ignores the special case on non-reserved hashes. -/
theorem decodeFromGrid36_ne_reserved {h : List Char} (hne : h ≠ RESERVED) :
    decodeFromGrid36 h = decodeGeneral h := by
  rw [decodeFromGrid36, if_neg hne]

/-- Decode returns the literal record on the reserved hash. -/
theorem decodeFromGrid36_reserved : decodeFromGrid36 RESERVED = some REF_RECORD := by
  rw [decodeFromGrid36, if_pos rfl]

/-- A hash of length other than nine is not the reserved hash. -/
theorem ne_reserved_of_length {h : List Char} (hl : h.length ≠ 9) : h ≠ RESERVED := by
  intro he
  rw [he] at hl
  exact hl rfl

/-- Decode succeeds on any hash of valid length whose characters are all
grid symbols. -/
theorem decodeFromGrid36_isSome_of_valid {h : List Char}
    (h1 : 1 ≤ h.length) (h2 : h.length ≤ 9)
    (hv : ∀ c ∈ h, c ∈ GLYPH_GRID.flatten) :
    (decodeFromGrid36 h).isSome = true := by
  by_cases hR : h = RESERVED
  · rw [hR, decodeFromGrid36_reserved]; rfl
  · rw [decodeFromGrid36_ne_reserved hR, decodeGeneral, Option.isSome_map',
      grid36DecodeToOrigin, if_pos ⟨h1, h2⟩, Option.isSome_map', grid36Accum_isSome]
    intro c hc
    exact (pos_isSome_iff c).mpr (hv c hc)

/-! ### Clamp and floor-index lemmas -/

/-- The clamp is inert on in-range inputs. -/
theorem clampX_eq {x : ℚ} (hlo : (X_MIN_AREA : ℚ) ≤ x)
    (hhi : x ≤ (X_MAX_AREA : ℚ) - EPS) : clampX x = x := by
  rw [clampX, min_eq_right hhi, max_eq_right hlo]

/-- The y clamp is inert on in-range inputs. -/
theorem clampY_eq {y : ℚ} (hlo : (Y_MIN_AREA : ℚ) ≤ y)
    (hhi : y ≤ (Y_MAX_AREA : ℚ) - EPS) : clampY y = y := by
  rw [clampY, min_eq_right hhi, max_eq_right hlo]

/-- The floor index of the x clamp always lands inside `[0, N)`: the
domain-guard error branch of `encodeToGrid36` is unreachable. -/
theorem iIdx_bounds (x : ℚ) : 0 ≤ iIdx x ∧ iIdx x < N := by
  constructor
  · rw [iIdx]
    apply Int.le_floor.mpr
    have h := le_max_left (X_MIN_AREA : ℚ) (min ((X_MAX_AREA : ℚ) - EPS) x)
    rw [show ((0 : ℤ) : ℚ) = 0 from rfl]
    rw [clampX]
    linarith
  · rw [iIdx]
    apply Int.floor_lt.mpr
    have h1 : clampX x ≤ (X_MAX_AREA : ℚ) - EPS := by
      rw [clampX]
      apply max_le
      · norm_num [X_MIN_AREA, X_MAX_AREA, EPS]
      · exact min_le_left _ _
    have h2 : ((N : ℤ) : ℚ) = (X_MAX_AREA : ℚ) - (X_MIN_AREA : ℚ) := by
      norm_num [N, X_MAX_AREA, X_MIN_AREA]
    have h3 : (0 : ℚ) < EPS := by norm_num [EPS]
    rw [h2]
    linarith

/-- The floor index of the y clamp always lands inside `[0, N)`. -/
theorem jIdx_bounds (y : ℚ) : 0 ≤ jIdx y ∧ jIdx y < N := by
  constructor
  · rw [jIdx]
    apply Int.le_floor.mpr
    have h := le_max_left (Y_MIN_AREA : ℚ) (min ((Y_MAX_AREA : ℚ) - EPS) y)
    rw [show ((0 : ℤ) : ℚ) = 0 from rfl]
    rw [clampY]
    linarith
  · rw [jIdx]
    apply Int.floor_lt.mpr
    have h1 : clampY y ≤ (Y_MAX_AREA : ℚ) - EPS := by
      rw [clampY]
      apply max_le
      · norm_num [Y_MIN_AREA, Y_MAX_AREA, EPS]
      · exact min_le_left _ _
    have h2 : ((N : ℤ) : ℚ) = (Y_MAX_AREA : ℚ) - (Y_MIN_AREA : ℚ) := by
      norm_num [N, X_MAX_AREA, X_MIN_AREA, Y_MAX_AREA, Y_MIN_AREA]
    have h3 : (0 : ℚ) < EPS := by norm_num [EPS]
    rw [h2]
    linarith

/-- The truncated x index is below `6 ^ 9`. -/
theorem iIdx_toNat_lt (x : ℚ) : (iIdx x).toNat < 6 ^ 9 := by
  have h := (iIdx_bounds x).2
  rw [N_val] at h
  have h9 : (6 : ℕ) ^ 9 = 10077696 := by norm_num
  omega

/-- The truncated y index is below `6 ^ 9`. -/
theorem jIdx_toNat_lt (y : ℚ) : (jIdx y).toNat < 6 ^ 9 := by
  have h := (jIdx_bounds y).2
  rw [N_val] at h
  have h9 : (6 : ℕ) ^ 9 = 10077696 := by norm_num
  omega

/-- Characterisation of `encodeToGrid36` on a valid depth: the guards pass
and the produced hash is the closed-form character list of the clamped floor
indices. -/
theorem encodeToGrid36_eq (x y : ℚ) (d : ℕ) (h1 : 1 ≤ d) (h2 : d ≤ 9) :
    encodeToGrid36 x y d =
      (decodeFromGrid36 (encChars (iIdx x).toNat (jIdx y).toNat d)).map
        (fun r =>
          { hash := encChars (iIdx x).toNat (jIdx y).toNat d
            depth := d
            tileSize := r.tileSize
            i0 := r.i0
            j0 := r.j0
            cx := r.cx
            cy := r.cy
            foraArea := decide (¬ inDomain x y) }) := by
  rw [encodeToGrid36, if_pos ⟨h1, h2⟩,
    if_pos ⟨(iIdx_bounds x).1, (iIdx_bounds x).2, (jIdx_bounds y).1, (jIdx_bounds y).2⟩,
    encodeLoop_encChars d h2 _ _ (iIdx_toNat_lt x) (jIdx_toNat_lt y)]

/-- Encoding never fails on a valid depth, and the result's hash, depth and
domain flag are as the source computes them. -/
theorem encodeToGrid36_some (x y : ℚ) (d : ℕ) (h1 : 1 ≤ d) (h2 : d ≤ 9) :
    ∃ e, encodeToGrid36 x y d = some e ∧
      e.hash = encChars (iIdx x).toNat (jIdx y).toNat d ∧
      e.depth = d ∧ e.foraArea = decide (¬ inDomain x y) := by
  rw [encodeToGrid36_eq x y d h1 h2]
  have hs : (decodeFromGrid36 (encChars (iIdx x).toNat (jIdx y).toNat d)).isSome = true :=
    decodeFromGrid36_isSome_of_valid (by rw [encChars_length]; omega)
      (by rw [encChars_length]; omega) (encChars_mem _ _ _)
  obtain ⟨r, hr⟩ := Option.isSome_iff_exists.mp hs
  rw [hr]
  exact ⟨_, rfl, rfl, rfl, rfl⟩

/-- A point on or beyond the upper x boundary clamps to the last cell. -/
theorem iIdx_boundary {x : ℚ} (hx : (X_MAX_AREA : ℚ) ≤ x) : iIdx x = N - 1 := by
  have heps : (0 : ℚ) < EPS := by norm_num [EPS]
  rw [iIdx, clampX, min_eq_left (by linarith : (X_MAX_AREA : ℚ) - EPS ≤ x),
    max_eq_right (by norm_num [X_MIN_AREA, X_MAX_AREA, EPS])]
  rw [N_val, show (10077696 : ℤ) - 1 = 10077695 by norm_num]
  apply Int.floor_eq_iff.mpr
  constructor
  · norm_num [X_MIN_AREA, X_MAX_AREA, EPS]
  · norm_num [X_MIN_AREA, X_MAX_AREA, EPS]

/-- A point on or beyond the upper y boundary clamps to the last cell. -/
theorem jIdx_boundary {y : ℚ} (hy : (Y_MAX_AREA : ℚ) ≤ y) : jIdx y = N - 1 := by
  have heps : (0 : ℚ) < EPS := by norm_num [EPS]
  rw [jIdx, clampY, min_eq_left (by linarith : (Y_MAX_AREA : ℚ) - EPS ≤ y),
    max_eq_right (by norm_num [Y_MIN_AREA, Y_MAX_AREA, EPS])]
  rw [N_val, show (10077696 : ℤ) - 1 = 10077695 by norm_num]
  apply Int.floor_eq_iff.mpr
  constructor
  · norm_num [Y_MIN_AREA, Y_MAX_AREA, EPS]
  · norm_num [Y_MIN_AREA, Y_MAX_AREA, EPS]

/-- The floor index of an in-range cell-center x coordinate is the cell. -/
theorem iIdx_half (c : ℕ) (hc : (c : ℤ) < N) :
    iIdx ((X_MIN_AREA : ℚ) + ((c : ℚ) + 1/2)) = (c : ℤ) := by
  have hcq : (c : ℚ) ≤ 10077695 := by
    have h : (c : ℤ) ≤ 10077695 := by rw [N_val] at hc; omega
    exact_mod_cast h
  rw [iIdx, clampX_eq]
  · rw [show (X_MIN_AREA : ℚ) + ((c : ℚ) + 1/2) - (X_MIN_AREA : ℚ) = ((c : ℤ) : ℚ) + 1/2
      by push_cast; ring]
    rw [Int.floor_int_add, show ⌊(1/2 : ℚ)⌋ = 0 by norm_num, add_zero]
  · have h0 : (0 : ℚ) ≤ (c : ℚ) + 1/2 := by positivity
    linarith
  · rw [show (X_MIN_AREA : ℚ) = 607919 by norm_num [X_MIN_AREA],
      show (X_MAX_AREA : ℚ) - EPS = 10685615 - 1/1000000000
        by norm_num [X_MAX_AREA, EPS]]
    linarith

/-- The floor index of an in-range cell-center y coordinate is the cell. -/
theorem jIdx_half (c : ℕ) (hc : (c : ℤ) < N) :
    jIdx ((Y_MIN_AREA : ℚ) + ((c : ℚ) + 1/2)) = (c : ℤ) := by
  have hcq : (c : ℚ) ≤ 10077695 := by
    have h : (c : ℤ) ≤ 10077695 := by rw [N_val] at hc; omega
    exact_mod_cast h
  rw [jIdx, clampY_eq]
  · rw [show (Y_MIN_AREA : ℚ) + ((c : ℚ) + 1/2) - (Y_MIN_AREA : ℚ) = ((c : ℤ) : ℚ) + 1/2
      by push_cast; ring]
    rw [Int.floor_int_add, show ⌊(1/2 : ℚ)⌋ = 0 by norm_num, add_zero]
  · have h0 : (0 : ℚ) ≤ (c : ℚ) + 1/2 := by positivity
    linarith
  · rw [show (Y_MIN_AREA : ℚ) = 4528175 by norm_num [Y_MIN_AREA],
      show (Y_MAX_AREA : ℚ) - EPS = 14605871 - 1/1000000000
        by norm_num [Y_MAX_AREA, EPS]]
    linarith

/-- Evaluation of `getTileSizeFromLevel` on a valid depth: both per-axis
sizes equal `6 ^ (9 - d)` because both extents are `6 ^ 9`. -/
theorem getTileSize_eq (d : ℕ) (h1 : 1 ≤ d) (h2 : d ≤ 9) :
    getTileSizeFromLevel d = some ((6 : ℚ) ^ (9 - d)) := by
  rw [getTileSizeFromLevel, if_pos ⟨h1, h2⟩]
  congr 1
  have hx : ((X_MAX_AREA - X_MIN_AREA : ℤ) : ℚ) = (6 : ℚ) ^ 9 := by
    norm_num [X_MAX_AREA, X_MIN_AREA]
  have hy : ((Y_MAX_AREA - Y_MIN_AREA : ℤ) : ℚ) = (6 : ℚ) ^ 9 := by
    norm_num [Y_MAX_AREA, Y_MIN_AREA]
  rw [hx, hy, min_self, div_eq_iff (by positivity : ((6 : ℚ) ^ d) ≠ 0), ← pow_add]
  congr 1
  omega

/-- The truncation/identity paths of `adjustHashDepth` return the prefix and
never consult the decoder. -/
theorem adjustHashDepth_truncate (rt : ℚ → ℚ → ℚ × ℚ) (h : List Char) (n : ℕ)
    (h1 : 1 ≤ n) (h2 : n ≤ h.length) (h3 : h.length ≤ 9) :
    adjustHashDepth rt h n = some (h.take n) := by
  rw [adjustHashDepth, if_pos ⟨h1, by omega⟩]
  by_cases he : h.length = n
  · rw [if_pos he, ← he, List.take_length]
  · rw [if_neg he, if_pos (by omega)]

/-- The extend path of `adjustHashDepth` re-encodes the round-tripped
centroid when decode and re-encode both succeed. -/
theorem adjustHashDepth_extend (rt : ℚ → ℚ → ℚ × ℚ) (h : List Char) (n : ℕ)
    (h1 : 1 ≤ n) (h9 : n ≤ 9) (hlt : h.length < n)
    {d : DecodeRecord} (hd : decodeFromGrid36 h = some d)
    {e : EncodeResult} (he : encodeToGrid36 (rt d.cx d.cy).1 (rt d.cx d.cy).2 n = some e) :
    adjustHashDepth rt h n = some e.hash := by
  rw [adjustHashDepth, if_pos ⟨h1, h9⟩, if_neg (by omega), if_neg (by omega)]
  simp only [hd, he]

/-- A base-6 digit of the tile-centered index agrees with the digit of the
original index at all positions at or above the tile scale. -/
theorem dgt_centroid (iN d1 m : ℕ) (hm1 : 9 - d1 ≤ m) :
    dgt (iN / 6 ^ (9 - d1) * 6 ^ (9 - d1) + 6 ^ (9 - d1) / 2) m = dgt iN m := by
  set s := (6 : ℕ) ^ (9 - d1) with hs
  have hspos : 0 < s := Nat.pos_pow_of_pos _ (by norm_num)
  have hm6 : (6 : ℕ) ^ m = s * 6 ^ (m - (9 - d1)) := by
    rw [hs, ← pow_add]; congr 1; omega
  have hhalf : s / 2 < s := Nat.div_lt_self hspos (by norm_num)
  rw [dgt, dgt, hm6, ← Nat.div_div_eq_div_mul, ← Nat.div_div_eq_div_mul]
  rw [Nat.mul_comm (iN / s) s, Nat.mul_add_div hspos, Nat.div_eq_of_lt hhalf, Nat.add_zero]

/-! ### Claim theorems -/

/-- C3: `decodeFromGrid36` maps the reserved all-zero nine-character ID to
the literal reference tile record (depth 9, tile size 1, unit bounds at the
fixed origin, planar centroid (5646767.5, 9567023.5)) by a special-case
lookup, and that record differs from what the general symbol-lookup
accumulation path produces for the same string. -/
theorem C3_reserved_special_case :
    decodeFromGrid36 RESERVED = some REF_RECORD ∧
    REF_RECORD.depth = 9 ∧ REF_RECORD.tileSize = 1 ∧
    REF_RECORD.xmin = 5646767 ∧ REF_RECORD.ymin = 9567023 ∧
    REF_RECORD.xmax = 5646768 ∧ REF_RECORD.ymax = 9567024 ∧
    REF_RECORD.cx = 5646767 + 1/2 ∧ REF_RECORD.cy = 9567023 + 1/2 ∧
    decodeGeneral RESERVED ≠ some REF_RECORD := by
  refine ⟨decodeFromGrid36_reserved, rfl, rfl, rfl, rfl, rfl, rfl, rfl, rfl, ?_⟩
  intro hEq
  obtain ⟨t, ht, _, _, _, hi0, _⟩ := decodeGeneral_inv hEq
  rw [show grid36DecodeToOrigin RESERVED = some (6046617, 6046617, 1) from by decide] at ht
  obtain rfl := Option.some.inj ht
  exact absurd hi0 (by decide)

/-- C4 counterexample: the reserved ID is a nine-character string made of
grid-alphabet symbols, yet the record it decodes to violates the bounds
formula `xmin = X_MIN_AREA + i0` of the claim. -/
theorem C4_counterexample :
    decodeFromGrid36 RESERVED = some REF_RECORD ∧
    RESERVED.length = 9 ∧
    RESERVED.all GLYPH_GRID.flatten.contains = true ∧
    ¬ REF_RECORD.xmin = (X_MIN_AREA : ℚ) + (REF_RECORD.i0 : ℚ) := by
  refine ⟨decodeFromGrid36_reserved, rfl, by decide, ?_⟩
  norm_num [REF_RECORD, X_MIN_AREA]

/-- C4 (amended): for every TileId accepted by decode other than the
reserved all-zero string, the returned record satisfies the bounds formula:
`xmin = X_MIN_AREA + i0`, `ymin = Y_MIN_AREA + j0`, `xmax = xmin + tileSize`,
`ymax = ymin + tileSize`, with `tileSize = 6 ^ (9 - depth)` and
`depth = length`. -/
theorem C4_bounds_formula {h : List Char} {r : DecodeRecord}
    (hne : h ≠ RESERVED) (hr : decodeFromGrid36 h = some r) :
    r.depth = h.length ∧ r.tileSize = (6 : ℚ) ^ (9 - r.depth) ∧
    r.xmin = (X_MIN_AREA : ℚ) + (r.i0 : ℚ) ∧ r.ymin = (Y_MIN_AREA : ℚ) + (r.j0 : ℚ) ∧
    r.xmax = r.xmin + r.tileSize ∧ r.ymax = r.ymin + r.tileSize := by
  rw [decodeFromGrid36_ne_reserved hne] at hr
  obtain ⟨t, ht, hhash, hdep, hts, hi0, hj0, hcx, hcy, hxmin, hymin, hxmax, hymax⟩ :=
    decodeGeneral_inv hr
  obtain ⟨hl1, hl2, ij, hij, htt⟩ := grid36DecodeToOrigin_inv ht
  have hscale : t.2.2 = 6 ^ (9 - h.length) := by rw [htt]
  refine ⟨hdep, ?_, ?_, ?_, ?_, ?_⟩
  · rw [hts, hscale, hdep]; norm_cast
  · rw [hxmin, hi0]
  · rw [hymin, hj0]
  · rw [hxmax, hxmin, hts]
  · rw [hymax, hymin, hts]

/-- C5: decode succeeds exactly on strings of length 1 to 9 whose characters
all belong to the fixed 36-symbol glyph alphabet; malformed IDs yield no
record at all. -/
theorem C5_validation (h : List Char) :
    (decodeFromGrid36 h).isSome = true ↔
      1 ≤ h.length ∧ h.length ≤ 9 ∧ ∀ c ∈ h, c ∈ GLYPH_GRID.flatten := by
  by_cases hR : h = RESERVED
  · subst hR
    rw [decodeFromGrid36_reserved]
    simp only [Option.isSome_some]
    exact ⟨fun _ => ⟨by decide, by decide, by decide⟩, fun _ => trivial⟩
  · rw [decodeFromGrid36_ne_reserved hR, decodeGeneral, Option.isSome_map',
      grid36DecodeToOrigin]
    by_cases hl : 1 ≤ h.length ∧ h.length ≤ 9
    · rw [if_pos hl, Option.isSome_map', grid36Accum_isSome]
      constructor
      · intro hv
        exact ⟨hl.1, hl.2, fun c hc => (pos_isSome_iff c).mp (hv c hc)⟩
      · intro hv c hc
        exact (pos_isSome_iff c).mpr (hv.2.2 c hc)
    · rw [if_neg hl]
      constructor
      · intro hfalse; exact absurd hfalse (by simp)
      · intro hv; exact absurd ⟨hv.1, hv.2.1⟩ hl

/-- C6: every decoded record reports `tileSize = 6 ^ (9 - depth)`, in
agreement with `getTileSizeFromLevel`, and the per-level size shrinks by
exactly a factor of 6 per extra depth level, hence strictly decreases. -/
theorem C6_tile_size :
    (∀ h r, decodeFromGrid36 h = some r →
        r.depth = h.length ∧ r.tileSize = (6 : ℚ) ^ (9 - r.depth) ∧
        getTileSizeFromLevel r.depth = some r.tileSize) ∧
    (∀ d, 1 ≤ d → d < 9 →
        getTileSizeFromLevel d = some ((6 : ℚ) ^ (9 - d)) ∧
        getTileSizeFromLevel (d + 1) = some ((6 : ℚ) ^ (9 - (d + 1))) ∧
        (6 : ℚ) ^ (9 - (d + 1)) * 6 = (6 : ℚ) ^ (9 - d) ∧
        (6 : ℚ) ^ (9 - (d + 1)) < (6 : ℚ) ^ (9 - d)) := by
  constructor
  · intro h r hr
    by_cases hR : h = RESERVED
    · subst hR
      rw [decodeFromGrid36_reserved] at hr
      obtain rfl := Option.some.inj hr
      refine ⟨rfl, by norm_num [REF_RECORD], ?_⟩
      rw [show REF_RECORD.depth = 9 from rfl, getTileSize_eq 9 (by norm_num) (le_refl 9)]
      norm_num [REF_RECORD]
    · rw [decodeFromGrid36_ne_reserved hR] at hr
      obtain ⟨t, ht, _, hdep, hts, _⟩ := decodeGeneral_inv hr
      obtain ⟨hl1, hl2, ij, hij, htt⟩ := grid36DecodeToOrigin_inv ht
      have hscale : t.2.2 = 6 ^ (9 - h.length) := by rw [htt]
      have hTS : r.tileSize = (6 : ℚ) ^ (9 - r.depth) := by
        rw [hts, hscale, hdep]; norm_cast
      refine ⟨hdep, hTS, ?_⟩
      rw [hdep, getTileSize_eq h.length hl1 hl2, hTS, hdep]
  · intro d hd1 hd9
    refine ⟨getTileSize_eq d hd1 (by omega), getTileSize_eq (d + 1) (by omega) (by omega),
      ?_, ?_⟩
    · rw [← pow_succ]
      congr 1
      omega
    · apply pow_lt_pow_right₀ (by norm_num : (1 : ℚ) < 6)
      omega

/-- C7: for any string of length 1 to 9 (characters arbitrary) and any new
depth between 1 and its length, depth adjustment returns exactly the prefix
of that length, the string itself when the depth is unchanged, and raises no
error. -/
theorem C7_truncation (rt : ℚ → ℚ → ℚ × ℚ) (h : List Char) (n : ℕ)
    (h1 : 1 ≤ n) (h2 : n ≤ h.length) (h3 : h.length ≤ 9) :
    adjustHashDepth rt h n = some (h.take n) :=
  adjustHashDepth_truncate rt h n h1 h2 h3

/-- C10: every decoded record's planar centroid lies strictly inside the
returned bounds, for the reserved ID as well as for the general path. -/
theorem C10_centroid_inside (h : List Char) (r : DecodeRecord)
    (hr : decodeFromGrid36 h = some r) :
    r.xmin < r.cx ∧ r.cx < r.xmax ∧ r.ymin < r.cy ∧ r.cy < r.ymax := by
  by_cases hR : h = RESERVED
  · subst hR
    rw [decodeFromGrid36_reserved] at hr
    obtain rfl := Option.some.inj hr
    refine ⟨?_, ?_, ?_, ?_⟩ <;> norm_num [REF_RECORD]
  · rw [decodeFromGrid36_ne_reserved hR] at hr
    obtain ⟨t, ht, _, _, _, _, _, hcx, hcy, hxmin, hymin, hxmax, hymax⟩ :=
      decodeGeneral_inv hr
    obtain ⟨hl1, hl2, ij, hij, htt⟩ := grid36DecodeToOrigin_inv ht
    have hspos : 1 ≤ t.2.2 := by
      rw [htt]
      exact Nat.one_le_pow _ _ (by norm_num)
    have hhalf : t.2.2 / 2 ≤ t.2.2 - 1 := by
      have hlt := Nat.div_lt_self (by omega : 0 < t.2.2) (by norm_num : 1 < 2)
      omega
    have hc2 : ((t.2.2 / 2 : ℕ) : ℚ) ≤ (t.2.2 : ℚ) - 1 := by
      have hle : ((t.2.2 / 2 : ℕ) : ℚ) ≤ ((t.2.2 - 1 : ℕ) : ℚ) := Nat.cast_le.mpr hhalf
      rw [Nat.cast_sub hspos] at hle
      simpa using hle
    have hc0 : (0 : ℚ) ≤ ((t.2.2 / 2 : ℕ) : ℚ) := Nat.cast_nonneg _
    refine ⟨?_, ?_, ?_, ?_⟩
    · rw [hxmin, hcx]; push_cast; linarith
    · rw [hcx, hxmax]; push_cast; linarith
    · rw [hymin, hcy]; push_cast; linarith
    · rw [hcy, hymax]; push_cast; linarith

/-- C1 counterexample: at the planar point whose full-resolution indices
have every base-6 digit equal to 3, depth-9 encoding produces exactly the
reserved all-zero ID, whose special-case decode returns the fixed reference
tile, and the clamped input point lies outside those bounds. -/
theorem C1_counterexample :
    (encodeToGrid36 6654536 10574792 9).map EncodeResult.hash = some RESERVED ∧
    decodeFromGrid36 RESERVED = some REF_RECORD ∧
    ¬ clampX 6654536 ≤ REF_RECORD.xmax := by
  have hi : iIdx 6654536 = 6046617 := by
    rw [iIdx, clampX_eq (by norm_num [X_MIN_AREA]) (by norm_num [X_MAX_AREA, EPS])]
    rw [show (6654536 : ℚ) - (X_MIN_AREA : ℚ) = ((6046617 : ℤ) : ℚ)
      by norm_num [X_MIN_AREA]]
    exact Int.floor_intCast _
  have hj : jIdx 10574792 = 6046617 := by
    rw [jIdx, clampY_eq (by norm_num [Y_MIN_AREA]) (by norm_num [Y_MAX_AREA, EPS])]
    rw [show (10574792 : ℚ) - (Y_MIN_AREA : ℚ) = ((6046617 : ℤ) : ℚ)
      by norm_num [Y_MIN_AREA]]
    exact Int.floor_intCast _
  refine ⟨?_, decodeFromGrid36_reserved, ?_⟩
  · obtain ⟨e, he, hhash, _, _⟩ := encodeToGrid36_some 6654536 10574792 9
      (by norm_num) (by norm_num)
    rw [he, Option.map_some']
    congr 1
    rw [hhash, hi, hj]
    decide
  · rw [clampX_eq (by norm_num [X_MIN_AREA]) (by norm_num [X_MAX_AREA, EPS])]
    norm_num [REF_RECORD]

/-- C1 (amended): whenever the hash produced by `encodeToGrid36` is not the
reserved all-zero string, decoding it yields bounds that contain the clamped
projected planar point on both axes. -/
theorem C1_roundtrip_containment (x y : ℚ) (d : ℕ) (e : EncodeResult) (r : DecodeRecord)
    (h1 : 1 ≤ d) (h2 : d ≤ 9)
    (he : encodeToGrid36 x y d = some e) (hne : e.hash ≠ RESERVED)
    (hr : decodeFromGrid36 e.hash = some r) :
    r.xmin ≤ clampX x ∧ clampX x ≤ r.xmax ∧ r.ymin ≤ clampY y ∧ clampY y ≤ r.ymax := by
  obtain ⟨f, hf, hhash, _, _⟩ := encodeToGrid36_some x y d h1 h2
  rw [hf] at he
  obtain rfl := Option.some.inj he
  rw [decodeFromGrid36_ne_reserved hne, hhash] at hr
  obtain ⟨t, ht, _, _, _, _, _, _, _, hxmin, hymin, hxmax, hymax⟩ := decodeGeneral_inv hr
  rw [grid36DecodeToOrigin_encChars d h1 h2 _ _ (iIdx_toNat_lt x) (jIdx_toNat_lt y)] at ht
  obtain rfl := Option.some.inj ht
  dsimp only at hxmin hymin hxmax hymax
  set s := (6 : ℕ) ^ (9 - d) with hs
  have hspos : 0 < s := Nat.pos_pow_of_pos _ (by norm_num)
  set iN := (iIdx x).toNat with hiN
  set jN := (jIdx y).toNat with hjN
  have hiQ : (iN : ℚ) = ((iIdx x : ℤ) : ℚ) := by
    rw [hiN]
    exact_mod_cast congrArg (fun z => ((z : ℤ) : ℚ)) (Int.toNat_of_nonneg (iIdx_bounds x).1)
  have hjQ : (jN : ℚ) = ((jIdx y : ℤ) : ℚ) := by
    rw [hjN]
    exact_mod_cast congrArg (fun z => ((z : ℤ) : ℚ)) (Int.toNat_of_nonneg (jIdx_bounds y).1)
  have hfloorX1 : ((iIdx x : ℤ) : ℚ) ≤ clampX x - (X_MIN_AREA : ℚ) := Int.floor_le _
  have hfloorX2 : clampX x - (X_MIN_AREA : ℚ) < ((iIdx x : ℤ) : ℚ) + 1 :=
    Int.lt_floor_add_one _
  have hfloorY1 : ((jIdx y : ℤ) : ℚ) ≤ clampY y - (Y_MIN_AREA : ℚ) := Int.floor_le _
  have hfloorY2 : clampY y - (Y_MIN_AREA : ℚ) < ((jIdx y : ℤ) : ℚ) + 1 :=
    Int.lt_floor_add_one _
  have hdownI : iN / s * s ≤ iN := Nat.div_mul_le_self iN s
  have hdownJ : jN / s * s ≤ jN := Nat.div_mul_le_self jN s
  have hupI : iN + 1 ≤ iN / s * s + s := by
    have hdm : s * (iN / s) + iN % s = iN := Nat.div_add_mod iN s
    have hmod : iN % s < s := Nat.mod_lt _ hspos
    have hcomm : iN / s * s = s * (iN / s) := Nat.mul_comm _ _
    omega
  have hupJ : jN + 1 ≤ jN / s * s + s := by
    have hdm : s * (jN / s) + jN % s = jN := Nat.div_add_mod jN s
    have hmod : jN % s < s := Nat.mod_lt _ hspos
    have hcomm : jN / s * s = s * (jN / s) := Nat.mul_comm _ _
    omega
  have hdownIQ : ((iN / s * s : ℕ) : ℚ) ≤ (iN : ℚ) := Nat.cast_le.mpr hdownI
  have hdownJQ : ((jN / s * s : ℕ) : ℚ) ≤ (jN : ℚ) := Nat.cast_le.mpr hdownJ
  have hupIQ : (iN : ℚ) + 1 ≤ ((iN / s * s : ℕ) : ℚ) + (s : ℚ) := by
    have hq : ((iN + 1 : ℕ) : ℚ) ≤ ((iN / s * s + s : ℕ) : ℚ) := Nat.cast_le.mpr hupI
    push_cast at hq ⊢
    linarith
  have hupJQ : (jN : ℚ) + 1 ≤ ((jN / s * s : ℕ) : ℚ) + (s : ℚ) := by
    have hq : ((jN + 1 : ℕ) : ℚ) ≤ ((jN / s * s + s : ℕ) : ℚ) := Nat.cast_le.mpr hupJ
    push_cast at hq ⊢
    linarith
  refine ⟨?_, ?_, ?_, ?_⟩
  · rw [hxmin]
    have := hiQ ▸ hfloorX1
    linarith
  · rw [hxmax]
    have := hiQ ▸ hfloorX2
    linarith
  · rw [hymin]
    have := hjQ ▸ hfloorY1
    linarith
  · rw [hymax]
    have := hjQ ▸ hfloorY2
    linarith

/-- C2: the hash of an encode at a shallower depth is exactly the prefix of
the hash of an encode of the same planar point at a deeper depth. -/
theorem C2_hash_refinement (x y : ℚ) (d1 d2 : ℕ) (e1 e2 : EncodeResult)
    (h1 : 1 ≤ d1) (hlt : d1 < d2) (h2 : d2 ≤ 9)
    (he1 : encodeToGrid36 x y d1 = some e1) (he2 : encodeToGrid36 x y d2 = some e2) :
    e1.hash = e2.hash.take d1 := by
  obtain ⟨f1, hf1, hh1, _, _⟩ := encodeToGrid36_some x y d1 h1 (by omega)
  obtain ⟨f2, hf2, hh2, _, _⟩ := encodeToGrid36_some x y d2 (by omega) h2
  rw [hf1] at he1
  rw [hf2] at he2
  obtain rfl := Option.some.inj he1
  obtain rfl := Option.some.inj he2
  rw [hh1, hh2, encChars_take _ _ (le_of_lt hlt)]

/-- C9: for every planar input the clamped floor indices satisfy the domain
guard (the error branch is unreachable), encoding succeeds, and a point on
or beyond an upper domain boundary lands in the last cell of that axis with
the `foraArea` flag set. -/
theorem C9_boundary_clamp (x y : ℚ) (d : ℕ) (h1 : 1 ≤ d) (h2 : d ≤ 9) :
    (0 ≤ iIdx x ∧ iIdx x < N ∧ 0 ≤ jIdx y ∧ jIdx y < N) ∧
    (encodeToGrid36 x y d).isSome = true ∧
    ((X_MAX_AREA : ℚ) ≤ x → iIdx x = N - 1) ∧
    ((Y_MAX_AREA : ℚ) ≤ y → jIdx y = N - 1) ∧
    (((X_MAX_AREA : ℚ) ≤ x ∨ (Y_MAX_AREA : ℚ) ≤ y) →
      (encodeToGrid36 x y d).map EncodeResult.foraArea = some true) := by
  obtain ⟨e, he, _, _, hfora⟩ := encodeToGrid36_some x y d h1 h2
  refine ⟨⟨(iIdx_bounds x).1, (iIdx_bounds x).2, (jIdx_bounds y).1, (jIdx_bounds y).2⟩,
    by rw [he]; rfl, fun hx => iIdx_boundary hx, fun hy => jIdx_boundary hy, ?_⟩
  intro hor
  rw [he, Option.map_some', hfora]
  congr 1
  apply decide_eq_true
  intro hdom
  rcases hor with hx | hy
  · exact absurd hdom.2.1 (not_lt.mpr hx)
  · exact absurd hdom.2.2.2 (not_lt.mpr hy)

/-- C8: refining an encoded hash to a deeper depth (via the decode /
round-trip / re-encode extend path, with the external projection round trip
exact) and then coarsening back to the original depth reproduces the
original hash exactly. -/
theorem C8_refine_coarsen (rt : ℚ → ℚ → ℚ × ℚ) (x y : ℚ) (d1 d2 : ℕ) (e : EncodeResult)
    (hrt : ∀ p q, rt p q = (p, q))
    (h1 : 1 ≤ d1) (hlt : d1 < d2) (h2 : d2 ≤ 9)
    (he : encodeToGrid36 x y d1 = some e) :
    (adjustHashDepth rt e.hash d2).bind (fun hh => adjustHashDepth rt hh d1) =
      some e.hash := by
  obtain ⟨f, hf, hhash, _, _⟩ := encodeToGrid36_some x y d1 h1 (by omega)
  rw [hf] at he
  set iN := (iIdx x).toNat with hiN
  set jN := (jIdx y).toNat with hjN
  have hiNlt : iN < 6 ^ 9 := iIdx_toNat_lt x
  have hjNlt : jN < 6 ^ 9 := jIdx_toNat_lt y
  have hE : e.hash = encChars iN jN d1 := by
    have hfe : f = e := Option.some.inj he
    rw [← hfe]
    exact hhash
  rw [hE]
  have hlen : (encChars iN jN d1).length = d1 := encChars_length _ _ _
  have hne : encChars iN jN d1 ≠ RESERVED := ne_reserved_of_length (by omega)
  -- decode the depth-d1 hash
  have hsome : (decodeFromGrid36 (encChars iN jN d1)).isSome = true :=
    decodeFromGrid36_isSome_of_valid (by rw [encChars_length]; omega)
      (by rw [encChars_length]; omega) (encChars_mem _ _ _)
  obtain ⟨drec, hdrec⟩ := Option.isSome_iff_exists.mp hsome
  have hdrec' : decodeGeneral (encChars iN jN d1) = some drec := by
    rw [← decodeFromGrid36_ne_reserved hne]
    exact hdrec
  obtain ⟨t, ht, _, _, _, _, _, hcx, hcy, _⟩ := decodeGeneral_inv hdrec'
  rw [grid36DecodeToOrigin_encChars d1 h1 (by omega) iN jN hiNlt hjNlt] at ht
  obtain rfl := Option.some.inj ht
  dsimp only at hcx hcy
  set s := (6 : ℕ) ^ (9 - d1) with hs
  have hspos : 0 < s := Nat.pos_pow_of_pos _ (by norm_num)
  set c1 := iN / s * s + s / 2 with hc1
  set c2 := jN / s * s + s / 2 with hc2
  -- the centroid cell is inside the domain
  have hq1 : iN / s < 6 ^ d1 := by
    rw [Nat.div_lt_iff_lt_mul hspos, hs, ← pow_add,
      show d1 + (9 - d1) = 9 by omega]
    exact hiNlt
  have hq2 : jN / s < 6 ^ d1 := by
    rw [Nat.div_lt_iff_lt_mul hspos, hs, ← pow_add,
      show d1 + (9 - d1) = 9 by omega]
    exact hjNlt
  have hi0le : iN / s * s ≤ 6 ^ 9 - s := by
    have hmul : iN / s * s ≤ (6 ^ d1 - 1) * s := Nat.mul_le_mul_right s (by omega)
    have hsub : (6 ^ d1 - 1) * s = 6 ^ d1 * s - s := by
      rw [Nat.sub_mul, Nat.one_mul]
    have hpow9 : (6 : ℕ) ^ d1 * s = 6 ^ 9 := by
      rw [hs, ← pow_add]
      congr 1
      omega
    omega
  have hj0le : jN / s * s ≤ 6 ^ 9 - s := by
    have hmul : jN / s * s ≤ (6 ^ d1 - 1) * s := Nat.mul_le_mul_right s (by omega)
    have hsub : (6 ^ d1 - 1) * s = 6 ^ d1 * s - s := by
      rw [Nat.sub_mul, Nat.one_mul]
    have hpow9 : (6 : ℕ) ^ d1 * s = 6 ^ 9 := by
      rw [hs, ← pow_add]
      congr 1
      omega
    omega
  have hhalflt : s / 2 < s := Nat.div_lt_self hspos (by norm_num)
  have hs9 : s ≤ 6 ^ 9 := by
    rw [hs]
    exact Nat.pow_le_pow_right (by norm_num) (by omega)
  have h69 : (6 : ℕ) ^ 9 = 10077696 := by norm_num
  have hc1lt : (c1 : ℤ) < N := by
    rw [N_val]
    have : c1 < 6 ^ 9 := by omega
    omega
  have hc2lt : (c2 : ℤ) < N := by
    rw [N_val]
    have : c2 < 6 ^ 9 := by omega
    omega
  -- index of the round-tripped centroid
  have hidxc1 : iIdx drec.cx = (c1 : ℤ) := by
    rw [hcx]
    exact iIdx_half c1 hc1lt
  have hidxc2 : jIdx drec.cy = (c2 : ℤ) := by
    rw [hcy]
    exact jIdx_half c2 hc2lt
  -- re-encode at depth d2
  obtain ⟨e2, he2, hh2, _, _⟩ := encodeToGrid36_some drec.cx drec.cy d2 (by omega) h2
  have hh2' : e2.hash = encChars c1 c2 d2 := by
    rw [hh2, hidxc1, hidxc2, Int.toNat_natCast, Int.toNat_natCast]
  have hlen2 : e2.hash.length = d2 := by rw [hh2', encChars_length]
  -- first adjust: extend
  have hrtid : rt drec.cx drec.cy = (drec.cx, drec.cy) := hrt _ _
  have hstep1 : adjustHashDepth rt (encChars iN jN d1) d2 = some e2.hash := by
    apply adjustHashDepth_extend rt (encChars iN jN d1) d2 (by omega) h2 (by omega) hdrec
    rw [hrtid]
    exact he2
  rw [hstep1, Option.some_bind]
  -- second adjust: truncate
  rw [adjustHashDepth_truncate rt e2.hash d1 h1 (by omega) (by omega)]
  congr 1
  rw [hh2', encChars_take _ _ (le_of_lt hlt)]
  rw [encChars, encChars]
  apply List.map_congr_left
  intro u hu
  have hu' : u < d1 := List.mem_range.mp hu
  have hm : 9 - d1 ≤ 8 - u := by omega
  rw [hc1, hc2, hs]
  rw [dgt_centroid iN d1 (8 - u) hm, dgt_centroid jN d1 (8 - u) hm]

/-! ### Concrete evaluations for witnesses -/

/-- Decode of the single-character ID made of the glyph of digit pair
(0, 0). -/
theorem decode_single_U :
    decodeFromGrid36 ['U'] =
      some ⟨['U'], 1, 1679616, 0, 0, 1447727 + 1/2, 5367983 + 1/2,
            607919, 4528175, 2287535, 6207791⟩ := by
  rw [decodeFromGrid36_ne_reserved (by decide), decodeGeneral,
    show grid36DecodeToOrigin ['U'] = some (0, 0, 1679616) from by decide,
    Option.map_some']
  refine congrArg some ?_
  simp only [ijToXy]
  norm_num [DecodeRecord.mk.injEq, X_MIN_AREA, Y_MIN_AREA]

/-- Decode of the two-character ID of nested (0, 0) digit pairs. -/
theorem decode_double_U :
    decodeFromGrid36 ['U','U'] =
      some ⟨['U','U'], 2, 279936, 0, 0, 747887 + 1/2, 4668143 + 1/2,
            607919, 4528175, 887855, 4808111⟩ := by
  rw [decodeFromGrid36_ne_reserved (by decide), decodeGeneral,
    show grid36DecodeToOrigin ['U','U'] = some (0, 0, 279936) from by decide,
    Option.map_some']
  refine congrArg some ?_
  simp only [ijToXy]
  norm_num [DecodeRecord.mk.injEq, X_MIN_AREA, Y_MIN_AREA]

/-- Decode of the single-character ID of the zero glyph (digit pair
(3, 3)). -/
theorem decode_single_zero :
    decodeFromGrid36 ['0'] =
      some ⟨['0'], 1, 1679616, 5038848, 5038848, 6486575 + 1/2, 10406831 + 1/2,
            5646767, 9567023, 7326383, 11246639⟩ := by
  rw [decodeFromGrid36_ne_reserved (by decide), decodeGeneral,
    show grid36DecodeToOrigin ['0'] = some (5038848, 5038848, 1679616) from by decide,
    Option.map_some']
  refine congrArg some ?_
  simp only [ijToXy]
  norm_num [DecodeRecord.mk.injEq, X_MIN_AREA, Y_MIN_AREA]

/-- Encode of the domain's lower-left corner at depth 1. -/
theorem encode_corner1 :
    encodeToGrid36 607919 4528175 1 =
      some ⟨['U'], 1, 1679616, 0, 0, 1447727 + 1/2, 5367983 + 1/2, false⟩ := by
  have hi : iIdx 607919 = 0 := by
    rw [iIdx, clampX_eq (by norm_num [X_MIN_AREA]) (by norm_num [X_MAX_AREA, EPS])]
    rw [show (607919 : ℚ) - (X_MIN_AREA : ℚ) = ((0 : ℤ) : ℚ) by norm_num [X_MIN_AREA]]
    exact Int.floor_intCast _
  have hj : jIdx 4528175 = 0 := by
    rw [jIdx, clampY_eq (by norm_num [Y_MIN_AREA]) (by norm_num [Y_MAX_AREA, EPS])]
    rw [show (4528175 : ℚ) - (Y_MIN_AREA : ℚ) = ((0 : ℤ) : ℚ) by norm_num [Y_MIN_AREA]]
    exact Int.floor_intCast _
  have hdom : inDomain 607919 4528175 := by
    norm_num [inDomain, X_MIN_AREA, X_MAX_AREA, Y_MIN_AREA, Y_MAX_AREA]
  rw [encodeToGrid36_eq 607919 4528175 1 (by norm_num) (by norm_num), hi, hj]
  rw [show ((0 : ℤ).toNat) = 0 from rfl]
  rw [show encChars 0 0 1 = ['U'] from by decide]
  rw [decode_single_U, Option.map_some']
  refine congrArg some ?_
  rw [decide_eq_false (not_not_intro hdom)]

/-- Encode of the domain's lower-left corner at depth 2. -/
theorem encode_corner2 :
    encodeToGrid36 607919 4528175 2 =
      some ⟨['U','U'], 2, 279936, 0, 0, 747887 + 1/2, 4668143 + 1/2, false⟩ := by
  have hi : iIdx 607919 = 0 := by
    rw [iIdx, clampX_eq (by norm_num [X_MIN_AREA]) (by norm_num [X_MAX_AREA, EPS])]
    rw [show (607919 : ℚ) - (X_MIN_AREA : ℚ) = ((0 : ℤ) : ℚ) by norm_num [X_MIN_AREA]]
    exact Int.floor_intCast _
  have hj : jIdx 4528175 = 0 := by
    rw [jIdx, clampY_eq (by norm_num [Y_MIN_AREA]) (by norm_num [Y_MAX_AREA, EPS])]
    rw [show (4528175 : ℚ) - (Y_MIN_AREA : ℚ) = ((0 : ℤ) : ℚ) by norm_num [Y_MIN_AREA]]
    exact Int.floor_intCast _
  have hdom : inDomain 607919 4528175 := by
    norm_num [inDomain, X_MIN_AREA, X_MAX_AREA, Y_MIN_AREA, Y_MAX_AREA]
  rw [encodeToGrid36_eq 607919 4528175 2 (by norm_num) (by norm_num), hi, hj]
  rw [show ((0 : ℤ).toNat) = 0 from rfl]
  rw [show encChars 0 0 2 = ['U','U'] from by decide]
  rw [decode_double_U, Option.map_some']
  refine congrArg some ?_
  rw [decide_eq_false (not_not_intro hdom)]

/-! ### Witnesses -/

/-- Witness for C1 at the domain's lower-left corner at depth 1. -/
theorem C1_witness :
    encodeToGrid36 607919 4528175 1 =
      some ⟨['U'], 1, 1679616, 0, 0, 1447727 + 1/2, 5367983 + 1/2, false⟩ ∧
    (['U'] : List Char) ≠ RESERVED ∧
    decodeFromGrid36 ['U'] =
      some ⟨['U'], 1, 1679616, 0, 0, 1447727 + 1/2, 5367983 + 1/2,
            607919, 4528175, 2287535, 6207791⟩ ∧
    ((607919 : ℚ) ≤ clampX 607919 ∧ clampX 607919 ≤ 2287535 ∧
      (4528175 : ℚ) ≤ clampY 4528175 ∧ clampY 4528175 ≤ 6207791) := by
  refine ⟨encode_corner1, by decide, decode_single_U, ?_⟩
  exact C1_roundtrip_containment 607919 4528175 1 _ _ (by norm_num) (by norm_num)
    encode_corner1 (by decide) decode_single_U

/-- Witness for C2 at the domain's lower-left corner, depths 1 and 2. -/
theorem C2_witness :
    encodeToGrid36 607919 4528175 1 =
      some ⟨['U'], 1, 1679616, 0, 0, 1447727 + 1/2, 5367983 + 1/2, false⟩ ∧
    encodeToGrid36 607919 4528175 2 =
      some ⟨['U','U'], 2, 279936, 0, 0, 747887 + 1/2, 4668143 + 1/2, false⟩ ∧
    (['U'] : List Char) = (['U','U'] : List Char).take 1 := by
  refine ⟨encode_corner1, encode_corner2, ?_⟩
  exact C2_hash_refinement 607919 4528175 1 2 _ _ (by norm_num) (by norm_num) (by norm_num)
    encode_corner1 encode_corner2

/-- Witness for C4 on the single zero-glyph ID. -/
theorem C4_witness :
    (['0'] : List Char) ≠ RESERVED ∧
    decodeFromGrid36 ['0'] =
      some ⟨['0'], 1, 1679616, 5038848, 5038848, 6486575 + 1/2, 10406831 + 1/2,
            5646767, 9567023, 7326383, 11246639⟩ ∧
    (1 : ℕ) = (['0'] : List Char).length ∧
    (1679616 : ℚ) = (6 : ℚ) ^ (9 - 1) ∧
    (5646767 : ℚ) = (X_MIN_AREA : ℚ) + ((5038848 : ℕ) : ℚ) ∧
    (9567023 : ℚ) = (Y_MIN_AREA : ℚ) + ((5038848 : ℕ) : ℚ) ∧
    (7326383 : ℚ) = 5646767 + 1679616 ∧
    (11246639 : ℚ) = 9567023 + 1679616 := by
  refine ⟨by decide, decode_single_zero, ?_⟩
  exact C4_bounds_formula (by decide) decode_single_zero

/-- Witness for C5 on a well-formed two-character ID. -/
theorem C5_witness : (decodeFromGrid36 ['Z','9']).isSome = true :=
  (C5_validation ['Z','9']).mpr ⟨by decide, by decide, by decide⟩

/-- Witness for C6 at depth 2 and on the reserved record. -/
theorem C6_witness :
    REF_RECORD.depth = RESERVED.length ∧
    REF_RECORD.tileSize = (6 : ℚ) ^ (9 - REF_RECORD.depth) ∧
    getTileSizeFromLevel REF_RECORD.depth = some REF_RECORD.tileSize ∧
    getTileSizeFromLevel 2 = some ((6 : ℚ) ^ (9 - 2)) ∧
    getTileSizeFromLevel 3 = some ((6 : ℚ) ^ (9 - (2 + 1))) ∧
    (6 : ℚ) ^ (9 - (2 + 1)) * 6 = (6 : ℚ) ^ (9 - 2) ∧
    (6 : ℚ) ^ (9 - (2 + 1)) < (6 : ℚ) ^ (9 - 2) := by
  obtain ⟨a, b, c⟩ := C6_tile_size.1 RESERVED REF_RECORD decodeFromGrid36_reserved
  obtain ⟨d, e, f, g⟩ := C6_tile_size.2 2 (by norm_num) (by norm_num)
  exact ⟨a, b, c, d, e, f, g⟩

/-- Witness for C7 on a string whose characters are not grid symbols. -/
theorem C7_witness :
    (1 : ℕ) ≤ 1 ∧ (1 : ℕ) ≤ (['a','b'] : List Char).length ∧
    (['a','b'] : List Char).length ≤ 9 ∧
    adjustHashDepth (fun p q => (p, q)) ['a','b'] 1 =
      some ((['a','b'] : List Char).take 1) :=
  ⟨by decide, by decide, by decide,
    C7_truncation (fun p q => (p, q)) ['a','b'] 1 (by decide) (by decide) (by decide)⟩

/-- Witness for C8 at the domain's lower-left corner, depths 1 then 2. -/
theorem C8_witness :
    encodeToGrid36 607919 4528175 1 =
      some ⟨['U'], 1, 1679616, 0, 0, 1447727 + 1/2, 5367983 + 1/2, false⟩ ∧
    (adjustHashDepth (fun p q => (p, q)) ['U'] 2).bind
      (fun hh => adjustHashDepth (fun p q => (p, q)) hh 1) = some ['U'] := by
  refine ⟨encode_corner1, ?_⟩
  exact C8_refine_coarsen (fun p q => (p, q)) 607919 4528175 1 2 _ (fun _ _ => rfl)
    (by norm_num) (by norm_num) (by norm_num) encode_corner1

/-- Witness for C9 at the exact upper-boundary corner at depth 9. -/
theorem C9_witness :
    iIdx 10685615 = N - 1 ∧ jIdx 14605871 = N - 1 ∧
    (encodeToGrid36 10685615 14605871 9).isSome = true ∧
    (encodeToGrid36 10685615 14605871 9).map EncodeResult.foraArea = some true := by
  obtain ⟨hb, hs, hbx, hby, hf⟩ := C9_boundary_clamp 10685615 14605871 9
    (by norm_num) (by norm_num)
  exact ⟨hbx (by norm_num [X_MAX_AREA]), hby (by norm_num [Y_MAX_AREA]), hs,
    hf (Or.inl (by norm_num [X_MAX_AREA]))⟩

/-- Witness for C10 on the reserved record. -/
theorem C10_witness :
    REF_RECORD.xmin < REF_RECORD.cx ∧ REF_RECORD.cx < REF_RECORD.xmax ∧
    REF_RECORD.ymin < REF_RECORD.cy ∧ REF_RECORD.cy < REF_RECORD.ymax :=
  C10_centroid_inside RESERVED REF_RECORD decodeFromGrid36_reserved

end Grid36
